import Mathlib

/-!
Verification of the health-report web application's core logic:
the generation orchestrator (`handleFormSubmit` in App.tsx), the Gemini
service helpers (`cleanJsonString`, source deduplication, fast summary,
visual and audio generation in geminiService.ts) and the PCM audio
decode / playback engine (`decodePCM`, `handlePlayAudio`, `playBuffer`
in ReportDashboard.tsx).

Strings are modelled as `List Char` (JS UTF-16 strings restricted to the
code points that actually occur in the data of interest); JS numbers that
hold sample values or clock times are modelled as `ℚ`.
-/

/-! ## String helpers (JS primitives used by the service layer) -/

/-- JS whitespace class (the ASCII part of `\s`, which is all the source
ever feeds to `trim` / the trailing-comma regex). -/
def jsWsChar (c : Char) : Bool :=
  c = ' ' || c = '\t' || c = '\n' || c = '\r' || c = '\x0c' || c = '\x0b'

/-- Worker for `removeAllLit`; the fuel (initially the input length, which
bounds the number of steps) only makes the recursion structural. -/
def removeAllLitAux (pat : List Char) : Nat → List Char → List Char
  | _, [] => []
  | 0, l => l
  | fuel + 1, c :: rest =>
    if pat.isPrefixOf (c :: rest) then
      removeAllLitAux pat fuel (rest.drop (pat.length - 1))
    else
      c :: removeAllLitAux pat fuel rest

/-- `String.prototype.replace(/pat/g, '')` for a literal pattern:
left-to-right, non-overlapping removal of every occurrence. -/
def removeAllLit (pat l : List Char) : List Char :=
  removeAllLitAux pat l.length l

theorem length_dropWhile_le' (p : Char → Bool) (l : List Char) :
    (l.dropWhile p).length ≤ l.length := by
  induction l with
  | nil => simp [List.dropWhile]
  | cons c rest ih =>
    by_cases h : p c
    · simp only [List.dropWhile, h]
      exact ih.trans (Nat.le_succ _)
    · simp [List.dropWhile, h]

/-- `String.prototype.trim()`. -/
def jsTrim (l : List Char) : List Char :=
  ((l.dropWhile jsWsChar).reverse.dropWhile jsWsChar).reverse

/-- `String.prototype.substring(a, b)`: clamps and swaps its endpoints. -/
def jsSubstring (l : List Char) (a b : Nat) : List Char :=
  (l.take (max a b)).drop (min a b)

/-- Lines 10-14 of geminiService.ts: locate the first `\x7b` and the last
`\x7d`; when both exist, keep `substring(firstBrace, lastBrace + 1)`. -/
def extractJsonObject (l : List Char) : List Char :=
  match l.findIdx? (fun c => c = '{'), l.reverse.findIdx? (fun c => c = '}') with
  | some i, some jr => jsSubstring l i (l.length - 1 - jr + 1)
  | _, _ => l

/-- Worker for `stripTrailingCommas`; the fuel (initially the input
length) only makes the recursion structural. -/
def stripTrailingCommasAux : Nat → List Char → List Char
  | _, [] => []
  | 0, l => l
  | fuel + 1, ',' :: rest =>
    let ws := rest.takeWhile jsWsChar
    match rest.dropWhile jsWsChar with
    | '}' :: rest2 => ws ++ '}' :: stripTrailingCommasAux fuel rest2
    | ']' :: rest2 => ws ++ ']' :: stripTrailingCommasAux fuel rest2
    | _ => ',' :: stripTrailingCommasAux fuel rest
  | fuel + 1, c :: rest => c :: stripTrailingCommasAux fuel rest

/-- The regex replace `/,(\s*[\x7d\x5d])/g` → `'$1'`: drop a comma that is
followed by optional whitespace and a closing brace or bracket, resuming
the scan after the match (single pass, exactly like a `/g` replace). -/
def stripTrailingCommas (l : List Char) : List Char :=
  stripTrailingCommasAux l.length l

/-- The markdown fence marker for JSON blocks. -/
def fenceJsonPat : List Char := "```json".toList

/-- The bare markdown fence marker. -/
def fencePat : List Char := "```".toList

/-- `cleanJsonString` (geminiService.ts lines 6-19): strip fence markers,
trim, extract the brace-delimited object, drop trailing commas before
closing braces/brackets. -/
def cleanJsonString (s : List Char) : List Char :=
  stripTrailingCommas
    (extractJsonObject
      (jsTrim (removeAllLit fencePat (removeAllLit fenceJsonPat s))))

/-! ## A strict JSON parser (model of `JSON.parse`)

Used to state that the cleaned full-report text is parseable. Numbers are
kept as their lexemes (the claims never depend on numeric values). -/

/-- JSON values. -/
inductive Json where
  | null
  | bool (b : Bool)
  | num (lexeme : List Char)
  | str (s : List Char)
  | arr (xs : List Json)
  | obj (kvs : List (List Char × Json))
  deriving Repr, BEq

/-- JSON insignificant whitespace. -/
def jsonWs (c : Char) : Bool :=
  c = ' ' || c = '\t' || c = '\n' || c = '\r'

/-- Skip insignificant whitespace. -/
def skipWs (l : List Char) : List Char := l.dropWhile jsonWs

/-- Hex digit value. -/
def hexVal (c : Char) : Option Nat :=
  if '0' ≤ c ∧ c ≤ '9' then some (c.toNat - 48)
  else if 'a' ≤ c ∧ c ≤ 'f' then some (c.toNat - 97 + 10)
  else if 'A' ≤ c ∧ c ≤ 'F' then some (c.toNat - 65 + 10)
  else none

/-- Parse the body of a JSON string after the opening quote; returns the
decoded content and the remainder after the closing quote. -/
def parseStringBody : List Char → Option (List Char × List Char)
  | [] => none
  | '"' :: rest => some ([], rest)
  | '\\' :: e :: rest =>
    match e with
    | '"' => (parseStringBody rest).map (fun p => ('"' :: p.1, p.2))
    | '\\' => (parseStringBody rest).map (fun p => ('\\' :: p.1, p.2))
    | '/' => (parseStringBody rest).map (fun p => ('/' :: p.1, p.2))
    | 'b' => (parseStringBody rest).map (fun p => ('\x08' :: p.1, p.2))
    | 'f' => (parseStringBody rest).map (fun p => ('\x0c' :: p.1, p.2))
    | 'n' => (parseStringBody rest).map (fun p => ('\n' :: p.1, p.2))
    | 'r' => (parseStringBody rest).map (fun p => ('\r' :: p.1, p.2))
    | 't' => (parseStringBody rest).map (fun p => ('\t' :: p.1, p.2))
    | 'u' =>
      match rest with
      | h1 :: h2 :: h3 :: h4 :: rest' =>
        match hexVal h1, hexVal h2, hexVal h3, hexVal h4 with
        | some v1, some v2, some v3, some v4 =>
          let n := ((v1 * 16 + v2) * 16 + v3) * 16 + v4
          if n < 0xd800 then
            (parseStringBody rest').map (fun p => (Char.ofNat n :: p.1, p.2))
          else
            -- surrogate range: accepted by JSON.parse; model with U+FFFD
            (parseStringBody rest').map (fun p => ('�' :: p.1, p.2))
        | _, _, _, _ => none
      | _ => none
    | _ => none
  | c :: rest =>
    if c.toNat < 0x20 then none
    else (parseStringBody rest).map (fun p => (c :: p.1, p.2))

/-- One-or-more decimal digits. -/
def digits1 (l : List Char) : Option (List Char × List Char) :=
  let ds := l.takeWhile Char.isDigit
  if ds.isEmpty then none else some (ds, l.drop ds.length)

/-- Parse a JSON number token. -/
def parseNumber (l : List Char) : Option (Json × List Char) :=
  let (sgn, l1) := match l with
    | '-' :: r => (['-'], r)
    | _ => (([] : List Char), l)
  match l1 with
  | '0' :: r => parseNumberTail sgn ['0'] r
  | c :: r =>
    if c.isDigit ∧ c ≠ '0' then
      let ds := r.takeWhile Char.isDigit
      parseNumberTail sgn (c :: ds) (r.drop ds.length)
    else none
  | [] => none
where
  /-- fraction and exponent parts -/
  parseNumberTail (sgn intPart : List Char) (l : List Char) :
      Option (Json × List Char) :=
    let (fracPart, l2) := match l with
      | '.' :: r =>
        match digits1 r with
        | some (ds, r') => (('.' :: ds), r')
        | none => (['!'], r)   -- marker for failure
      | _ => (([] : List Char), l)
    if fracPart = ['!'] then none
    else
      let (expPart, l3) := match l2 with
        | 'e' :: r => parseExpTail 'e' r
        | 'E' :: r => parseExpTail 'E' r
        | _ => (([] : List Char), l2)
      if expPart = ['!'] then none
      else some (Json.num (sgn ++ intPart ++ fracPart ++ expPart), l3)
  /-- exponent digits after `e`/`E` -/
  parseExpTail (e : Char) (l : List Char) : List Char × List Char :=
    let (s, l1) := match l with
      | '+' :: r => (['+'], r)
      | '-' :: r => (['-'], r)
      | _ => (([] : List Char), l)
    match digits1 l1 with
    | some (ds, r') => (e :: s ++ ds, r')
    | none => (['!'], l)

mutual

/-- Parse one JSON value (fuel-bounded recursive descent). -/
def parseValue : Nat → List Char → Option (Json × List Char)
  | 0, _ => none
  | fuel + 1, l =>
    match skipWs l with
    | 'n' :: 'u' :: 'l' :: 'l' :: rest => some (.null, rest)
    | 't' :: 'r' :: 'u' :: 'e' :: rest => some (.bool true, rest)
    | 'f' :: 'a' :: 'l' :: 's' :: 'e' :: rest => some (.bool false, rest)
    | '"' :: rest => (parseStringBody rest).map (fun p => (.str p.1, p.2))
    | '[' :: rest =>
      match skipWs rest with
      | ']' :: r => some (.arr [], r)
      | l' => parseElems fuel l' []
    | '{' :: rest =>
      match skipWs rest with
      | '}' :: r => some (.obj [], r)
      | l' => parseMembers fuel l' []
    | l' => parseNumber l'

/-- Parse the elements of a non-empty JSON array. -/
def parseElems : Nat → List Char → List Json → Option (Json × List Char)
  | 0, _, _ => none
  | fuel + 1, l, acc =>
    match parseValue fuel l with
    | none => none
    | some (v, rest) =>
      match skipWs rest with
      | ',' :: r => parseElems fuel r (acc ++ [v])
      | ']' :: r => some (.arr (acc ++ [v]), r)
      | _ => none

/-- Parse the members of a non-empty JSON object. -/
def parseMembers : Nat → List Char → List (List Char × Json) →
    Option (Json × List Char)
  | 0, _, _ => none
  | fuel + 1, l, acc =>
    match skipWs l with
    | '"' :: rest =>
      match parseStringBody rest with
      | none => none
      | some (k, r1) =>
        match skipWs r1 with
        | ':' :: r2 =>
          match parseValue fuel r2 with
          | none => none
          | some (v, r3) =>
            match skipWs r3 with
            | ',' :: r4 => parseMembers fuel r4 (acc ++ [(k, v)])
            | '}' :: r4 => some (.obj (acc ++ [(k, v)]), r4)
            | _ => none
        | _ => none
    | _ => none

end

/-- `JSON.parse` model: parse one value and require only whitespace after. -/
def parseJson (l : List Char) : Option Json :=
  match parseValue (l.length + 1) l with
  | some (v, rest) => if skipWs rest = [] then some v else none
  | none => none

/-! ## Report data model (types.ts) and source deduplication
(geminiService.ts, `generateHealthReport` lines 123-136) -/

/-- A web-search citation (`Source` in types.ts). -/
structure Source where
  title : String
  uri : String
  deriving DecidableEq, Repr

/-- One entry of the daily routine (`DailyActivity` in types.ts). -/
structure DailyActivity where
  timeOfDay : String
  title : String
  description : String
  type : String
  deriving DecidableEq, Repr

/-- The structured report (`HealthReport` in types.ts). -/
structure HealthReport where
  bmi : ℚ
  bmiCategory : String
  overallHealthScore : ℚ
  summary : String
  potentialRisks : List String
  keyStrengths : List String
  dailyRoutine : List DailyActivity
  nutritionalAdvice : List String
  sources : Option (List Source) := none
  visualBase64 : Option String := none
  date : Option String := none
  deriving DecidableEq, Repr

/-- A grounding chunk as delivered by the model's search metadata:
`chunk.web?.title` and `chunk.web?.uri`, either possibly absent. -/
structure GroundingChunk where
  webTitle : Option String
  webUri : Option String
  deriving DecidableEq, Repr

/-- JS `x || d` on an optional string: `undefined` and `""` are falsy. -/
def jsStrOr (x : Option String) (d : String) : String :=
  match x with
  | some t => if t = "" then d else t
  | none => d

/-- `chunks.map(chunk => (title: chunk.web?.title || "Source",
uri: chunk.web?.uri || ""))` (lines 124-128). -/
def chunkToSource (c : GroundingChunk) : Source :=
  { title := jsStrOr c.webTitle "Source", uri := jsStrOr c.webUri "" }

/-- `Map.prototype.set`: replace the value in place when the key exists
(keeping its original position), otherwise append the new entry. -/
def jsMapSet (m : List (String × Source)) (k : String) (v : Source) :
    List (String × Source) :=
  if m.any (fun p => p.1 = k) then
    m.map (fun p => if p.1 = k then (p.1, v) else p)
  else
    m ++ [(k, v)]

/-- Lines 131-136: `sources.forEach(s => uniqueSourcesMap.set(s.uri, s))`
followed by `Array.from(uniqueSourcesMap.values())`. -/
def dedupeSources (sources : List Source) : List Source :=
  (sources.foldl (fun m s => jsMapSet m s.uri s) []).map Prod.snd

/-- Lines 123-129: map the chunks to sources and drop empty URIs. -/
def mappedSources (chunks : List GroundingChunk) : List Source :=
  (chunks.map chunkToSource).filter (fun s => s.uri ≠ "")

/-- The full citation pipeline of `generateHealthReport`. -/
def extractSources (chunks : List GroundingChunk) : List Source :=
  dedupeSources (mappedSources chunks)

/-! ## Orchestrator (`handleFormSubmit` in App.tsx) -/

/-- A JS `Error`, inspected only through its `message`. -/
structure JsError where
  message : String
  deriving DecidableEq, Repr

/-- A settled promise: the (absolute) time at which it settles and its
outcome. -/
structure Prom (α : Type) where
  time : ℚ
  val : Except JsError α

/-- `Promise.all` on two promises: fulfils with the pair once both have
fulfilled (at the later of the two times); rejects as soon as either
rejects, with the earlier rejection. -/
def promAll2 {α β : Type} (p : Prom α) (q : Prom β) : Prom (α × β) :=
  match p.val, q.val with
  | .ok a, .ok b => ⟨max p.time q.time, .ok (a, b)⟩
  | .error e, .ok _ => ⟨p.time, .error e⟩
  | .ok _, .error e => ⟨q.time, .error e⟩
  | .error e₁, .error e₂ =>
    ⟨min p.time q.time, .error (if p.time ≤ q.time then e₁ else e₂)⟩

/-- The four generation calls issued by `handleFormSubmit`, in program
order (App.tsx lines 60-70). -/
inductive GenCall where
  | visual
  | fastSummary
  | fullReport
  | narration
  deriving DecidableEq, Repr

/-- Strip markdown control characters: `text.replace(/[*#_]/g, '')`
(geminiService.ts line 177). -/
def stripMd (l : List Char) : List Char :=
  l.filter (fun c => !(c = '*' || c = '#' || c = '_'))

/-- `generateAudioSummary`'s input shaping (lines 177-178): strip, then
truncate to 600 characters plus a period when longer than 600. -/
def safeTtsText (l : List Char) : List Char :=
  let cleanText := stripMd l
  if 600 < cleanText.length then cleanText.take 600 ++ ['.'] else cleanText

/-- The text actually sent to the TTS model for an input string. -/
def ttsInputText (s : String) : String := String.mk (safeTtsText s.toList)

/-- The environment a single submission runs against: resolution times and
raw outcomes of the four upstream model calls. The narration outcome is a
function of the text sent to the TTS model (the call is chained on the
fast summary). -/
structure GenEnv where
  tVisual : ℚ
  tSummary : ℚ
  tReport : ℚ
  tAudioDelta : ℚ
  fastSummaryRaw : Except JsError String
  fullReport : Except JsError HealthReport
  visualParts : Except JsError (List (Option String))
  audioData : String → Except JsError (Option String)

/-- `generateFastSummary` (geminiService.ts lines 380-409): returns
`response.text || "Your health profile has been analyzed."`, and on any
thrown error is caught and falls back to a fixed string — it never
rejects. -/
def generateFastSummary (env : GenEnv) : String :=
  match env.fastSummaryRaw with
  | .ok t => if t = "" then "Your health profile has been analyzed." else t
  | .error _ => "Your comprehensive health report is ready."

/-- `generateReportVisual` (lines 149-173): first part carrying inline
image data, `undefined` when absent, and any error is caught and mapped to
`undefined` — it never rejects. -/
def generateReportVisual (env : GenEnv) : Option String :=
  match env.visualParts with
  | .ok parts => (parts.filterMap id).head?
  | .error _ => none

/-- `generateAudioSummary` (lines 175-203): shapes the text via
`safeTtsText`, then returns the inline audio payload, throwing
`"No audio data generated"` when it is absent and re-throwing upstream
errors. -/
def generateAudioSummary (env : GenEnv) (text : String) :
    Except JsError String :=
  match env.audioData (ttsInputText text) with
  | .ok (some d) => .ok d
  | .ok none => .error ⟨"No audio data generated"⟩
  | .error e => .error e

/-- The fast-summary promise: always fulfils (the service catches). -/
def summaryPromise (env : GenEnv) : Prom String :=
  ⟨env.tSummary, .ok (generateFastSummary env)⟩

/-- The full-report promise. -/
def reportPromise (env : GenEnv) : Prom HealthReport :=
  ⟨env.tReport, env.fullReport⟩

/-- The image promise: always fulfils (the service catches). -/
def visualPromise (env : GenEnv) : Prom (Option String) :=
  ⟨env.tVisual, .ok (generateReportVisual env)⟩

/-- The narration promise, chained on the fast summary
(`summaryPromise.then(s => generateAudioSummary(s))`, line 70): it starts
only when the fast summary has resolved, so it settles `tAudioDelta`
after `tSummary`, with the fast summary's text as input. -/
def audioPromise (env : GenEnv) : Prom String :=
  ⟨env.tSummary + env.tAudioDelta,
   generateAudioSummary env (generateFastSummary env)⟩

/-- The app's screen states (`AppState` in types.ts). -/
inductive AppPhase where
  | landing
  | form
  | loading
  | report
  | error
  | bloodBlog
  deriving DecidableEq, Repr

/-- The App component state touched by a submission. -/
structure AppModel where
  appState : AppPhase
  report : Option HealthReport
  reportAudio : Option String
  error : Option String
  deriving Repr

/-- Contiguous-segment test for lists. -/
def listIsInfixOf (pat : List Char) : List Char → Bool
  | [] => pat.isEmpty
  | c :: rest => pat.isPrefixOf (c :: rest) || listIsInfixOf pat rest

/-- Substring test (JS `String.prototype.includes`). -/
def strContains (s pat : String) : Bool :=
  listIsInfixOf pat.toList s.toList

/-- The error-message classification of App.tsx lines 100-116 (`msg`). -/
def refineErrorMessage (m : String) : String :=
  if m = "" then
    "An issue occurred while analyzing your profile. Please check your connection and try again."
  else if strContains m "429" || strContains m "Resource has been exhausted" then
    "The AI servers are currently experiencing high traffic. Please try again in a moment."
  else if strContains m "404" || strContains m "Not Found" then
    "The AI service is currently unavailable (Model Not Found). Please contact support."
  else if strContains m "API_KEY" || strContains m "403" then
    "Service configuration error: Invalid or missing API Key."
  else if strContains m "Safety" || strContains m "blocked" then
    "The profile data triggered safety filters. Please review your entries and try again."
  else if strContains m "parse" then
    "A malformed response was received from the AI. Please try again."
  else
    "Analysis failed: " ++ m

/-- What one submission produces: the calls it launched, when the
critical AND-join settled, and the final component state once every
attached handler has run. -/
structure SubmitOutcome where
  launched : List GenCall
  joinTime : ℚ
  final : AppModel

/-- The functional state update `prev => (...prev, visualBase64: img)`
used when the image promise fulfils (App.tsx lines 85-89). -/
def attachVisual (img : String) (r : HealthReport) : HealthReport :=
  { r with visualBase64 := some img }

/-- `handleFormSubmit` (App.tsx lines 47-121): reset audio/error, launch
the four calls, await `Promise.all([summaryPromise, reportPromise])`,
inject the fast summary into the report's summary field, then attach the
visual and audio results as they arrive; on a join rejection classify the
error and leave the previous report untouched. -/
def handleFormSubmit (env : GenEnv) (s0 : AppModel) : SubmitOutcome :=
  let s1 : AppModel :=
    { s0 with appState := .loading, error := none, reportAudio := none }
  let launched : List GenCall := [.visual, .fastSummary, .fullReport, .narration]
  let joined := promAll2 (summaryPromise env) (reportPromise env)
  match joined.val with
  | .error e =>
    { launched := launched, joinTime := joined.time,
      final := { s1 with
                   error := some (refineErrorMessage e.message),
                   appState := .error } }
  | .ok (fastSummary, generatedReport) =>
    let rep1 := { generatedReport with summary := fastSummary }
    let s2 := { s1 with report := some rep1, appState := .report }
    let s3 := match (visualPromise env).val with
      | .ok (some img) =>
        if img ≠ "" then
          { s2 with report := s2.report.map (attachVisual img) }
        else s2
      | _ => s2
    let s4 := match (audioPromise env).val with
      | .ok a => if a ≠ "" then { s3 with reportAudio := some a } else s3
      | .error _ => s3
    { launched := launched, joinTime := joined.time, final := s4 }

/-! ## PCM decoding (`decodePCM`, ReportDashboard.tsx lines 175-197) -/

/-- ASCII whitespace stripped by forgiving-base64 (`atob`). -/
def b64AsciiWs (c : Char) : Bool :=
  c = '\t' || c = '\n' || c = '\x0c' || c = '\r' || c = ' '

/-- Value of one base64 alphabet character. -/
def b64Val (c : Char) : Option Nat :=
  if 'A' ≤ c ∧ c ≤ 'Z' then some (c.toNat - 65)
  else if 'a' ≤ c ∧ c ≤ 'z' then some (c.toNat - 97 + 26)
  else if '0' ≤ c ∧ c ≤ '9' then some (c.toNat - 48 + 52)
  else if c = '+' then some 62
  else if c = '/' then some 63
  else none

/-- Remove up to two trailing `=` when the length is a multiple of 4
(forgiving-base64 step 2). -/
def b64StripPadding (cs : List Char) : List Char :=
  if cs.length % 4 = 0 then
    match cs.reverse with
    | '=' :: '=' :: r => r.reverse
    | '=' :: r => r.reverse
    | _ => cs
  else cs

/-- Assemble output bytes from 6-bit groups: every full group of four
characters yields three bytes, a trailing group of two or three yields
one or two bytes. -/
def b64Groups : List Nat → List Nat
  | a :: b :: c :: d :: rest =>
    (a * 4 + b / 16) :: ((b % 16) * 16 + c / 4) :: ((c % 4) * 64 + d) ::
      b64Groups rest
  | [a, b] => [a * 4 + b / 16]
  | [a, b, c] => [a * 4 + b / 16, (b % 16) * 16 + c / 4]
  | _ => []

/-- `atob`: WHATWG forgiving-base64 decode to a byte list, `none` on
malformed input. -/
def atob (s : String) : Option (List Nat) :=
  let cs := (s.toList.filter (fun c => !b64AsciiWs c))
  let cs := b64StripPadding cs
  if cs.length % 4 = 1 then none
  else (cs.mapM b64Val).map b64Groups

/-- Reinterpret two consecutive bytes as one signed 16-bit little-endian
integer (`Int16Array` view). -/
def int16OfPair (lo hi : Nat) : Int :=
  let u := lo + 256 * hi
  if u < 32768 then (u : Int) else (u : Int) - 65536

/-- The 16-bit samples of a byte buffer: consecutive little-endian pairs;
a trailing odd byte is dropped (lines 183-185: `effectiveLen`). -/
def pcmInt16s : List Nat → List Int
  | lo :: hi :: rest => int16OfPair lo hi :: pcmInt16s rest
  | _ => []

/-- Lines 192-194: normalize every sample to `[-1, 1]` by dividing by
32768. -/
def pcmSamples (bytes : List Nat) : List ℚ :=
  (pcmInt16s bytes).map (fun n : ℤ => (n : ℚ) / 32768)

/-- The decoded audio buffer: mono, 24 kHz, normalized samples. -/
structure AudioBufferModel where
  sampleRate : ℕ
  numChannels : ℕ
  samples : List ℚ
  deriving Repr

/-- `decodePCM` (lines 175-197): base64-decode, drop a trailing odd byte,
reinterpret as signed 16-bit little-endian samples, normalize into a
mono buffer at 24 kHz. `none` exactly when `atob` rejects the payload. -/
def decodePCM (base64Data : String) : Option AudioBufferModel :=
  (atob base64Data).map (fun bytes =>
    { sampleRate := 24000, numChannels := 1, samples := pcmSamples bytes })

/-- Re-encode a normalized sample: multiply by 32768 and round to the
nearest integer. -/
def encodeSample (x : ℚ) : Int := round (x * 32768)

/-! ## Audio playback engine (`handlePlayAudio` / `playBuffer`,
ReportDashboard.tsx lines 199-278)

The session state once a buffer has been decoded. Buffer-source nodes are
identified by the order of their creation; `active` lists the nodes that
have been started and not (yet) explicitly stopped — the Web Audio
"playback primitives" of the spec. `timers` holds the pending auto-stop
timeouts that `playBuffer` arms. -/

/-- `setTimeout(..., durationRemaining * 1000 + 200)`: the 200 ms safety
margin, in seconds. -/
def timerMargin : ℚ := 1 / 5

/-- Playback session state. -/
structure PBState where
  now : ℚ
  isPlaying : Bool
  duration : ℚ
  currentTime : ℚ
  pausedTime : ℚ
  startTime : ℚ
  sourceNode : Option ℕ
  active : List ℕ
  nextId : ℕ
  timers : List (ℚ × ℕ)
  lastStartOffset : Option ℚ
  deriving Repr

/-- Lines 254-256 of `playBuffer`: stop (and thereby deactivate) the
node currently held by `sourceNodeRef`, if any. -/
def stopCurrent (s : PBState) : PBState :=
  match s.sourceNode with
  | some id => { s with active := s.active.erase id }
  | none => s

/-- `playBuffer` (lines 253-278): stop the current node, create and start
a fresh single-shot node at `startOffset`, record the start reference
`ctx.currentTime - startOffset`, and arm the auto-stop timeout for
`duration - startOffset` plus the safety margin. -/
def playBuffer (s : PBState) (startOffset : ℚ) : PBState :=
  let s1 := stopCurrent s
  { s1 with
      active := s1.nextId :: s1.active,
      startTime := s1.now - startOffset,
      sourceNode := some s1.nextId,
      isPlaying := true,
      nextId := s1.nextId + 1,
      timers := (s1.now + (s1.duration - startOffset) + timerMargin,
                 s1.nextId) :: s1.timers,
      lastStartOffset := some startOffset }

/-- `handlePlayAudio` (lines 199-251), in a session whose buffer is
already decoded: while playing it pauses (stop the node, store
`ctx.currentTime - startTimeRef` as the offset); while stopped it starts
at offset 0 when the head has reached the duration, else at the stored
paused offset. -/
def handlePlayAudio (s : PBState) : PBState :=
  if s.isPlaying then
    match s.sourceNode with
    | some id =>
      let elapsed := s.now - s.startTime
      { s with
          active := s.active.erase id,
          pausedTime := elapsed,
          currentTime := elapsed,
          isPlaying := false }
    | none => s
  else
    let startOffset := if s.duration ≤ s.currentTime then 0 else s.pausedTime
    playBuffer s startOffset

/-- The auto-stop timeout callback (lines 271-277): when the ref still
holds the node the timeout was armed for, clear the playing flag and
reset the head and the paused offset to 0. The pause branch never clears
`sourceNodeRef`, so a pause does not disarm this timer. -/
def fireTimer (s : PBState) (t : ℚ × ℕ) : PBState :=
  let s1 := { s with timers := s.timers.erase t }
  if s.sourceNode = some t.2 then
    { s1 with isPlaying := false, pausedTime := 0, currentTime := 0 }
  else s1

/-- The animation-frame loop (lines 78-95): while playing, the displayed
head is `ctx.currentTime - startTimeRef`, clamped to the duration; while
stopped it is frozen. -/
def rafTick (s : PBState) : PBState :=
  if s.isPlaying then
    { s with currentTime := min (s.now - s.startTime) s.duration }
  else s

/-- Session state right after a buffer of duration `d` was decoded at
engine time `t0`. -/
def initState (d t0 : ℚ) : PBState :=
  { now := t0, isPlaying := false, duration := d, currentTime := 0,
    pausedTime := 0, startTime := 0, sourceNode := none, active := [],
    nextId := 0, timers := [], lastStartOffset := none }

/-- One step of the playback session: the play/pause button, time
passing, an animation tick, or a due timeout firing. -/
inductive PBStep : PBState → PBState → Prop where
  | play (s : PBState) : PBStep s (handlePlayAudio s)
  | advance (s : PBState) (δ : ℚ) (h : 0 ≤ δ) :
      PBStep s { s with now := s.now + δ }
  | tick (s : PBState) : PBStep s (rafTick s)
  | fire (s : PBState) (t : ℚ × ℕ) (hmem : t ∈ s.timers)
      (hdue : t.1 ≤ s.now) : PBStep s (fireTimer s t)

/-- States reachable from a freshly decoded session. -/
def PBReachable (d t0 : ℚ) (s : PBState) : Prop :=
  Relation.ReflTransGen PBStep (initState d t0) s

/-! ## Theorems -/

theorem encodeSample_int (n : ℤ) : encodeSample ((n : ℚ) / 32768) = n := by
  unfold encodeSample
  rw [div_mul_cancel₀ _ (by norm_num : (32768 : ℚ) ≠ 0)]
  exact round_intCast n

theorem mem_zip_same {α : Type} (l : List α) (p : α × α)
    (hp : p ∈ l.zip l) : p.1 = p.2 := by
  induction l with
  | nil => simp [List.zip] at hp
  | cons a t ih =>
    rw [List.zip_cons_cons] at hp
    rcases List.mem_cons.mp hp with h | h
    · rw [h]
    · exact ih h

/-- Claim C7: for every even-length byte sequence, re-encoding the decoded
samples (multiply by 32768, round to nearest) reproduces the original
signed 16-bit sample values — in fact exactly, hence within 1 LSB. -/
theorem pcm_round_trip (bytes : List Nat) (_ : bytes.length % 2 = 0) :
    (pcmSamples bytes).map encodeSample = pcmInt16s bytes ∧
    ∀ p : ℤ × ℤ,
      p ∈ ((pcmSamples bytes).map encodeSample).zip (pcmInt16s bytes) →
      (p.1 - p.2).natAbs ≤ 1 := by
  have gen : ∀ l : List ℤ,
      (List.map (fun n : ℤ => (n : ℚ) / 32768) l).map encodeSample = l := by
    intro l
    induction l with
    | nil => rfl
    | cons a t ih => simp only [List.map_cons, encodeSample_int, ih]
  have key : (pcmSamples bytes).map encodeSample = pcmInt16s bytes := by
    unfold pcmSamples
    exact gen (pcmInt16s bytes)
  refine ⟨key, ?_⟩
  intro p hp
  rw [key] at hp
  have := mem_zip_same _ p hp
  simp [this]

/-- Witness for C7 at the concrete buffer `0x0001 0xffff`. -/
theorem pcm_round_trip_witness :
    [(0 : ℕ), 1, 255, 255].length % 2 = 0 ∧
    (pcmSamples [0, 1, 255, 255]).map encodeSample =
      pcmInt16s [0, 1, 255, 255] := by
  exact ⟨by decide, (pcm_round_trip [0, 1, 255, 255] (by decide)).1⟩

theorem pcmInt16s_length : ∀ bs : List Nat,
    (pcmInt16s bs).length = bs.length / 2
  | [] => by simp [pcmInt16s]
  | [_] => by simp [pcmInt16s]
  | _ :: _ :: rest => by
    simp only [pcmInt16s, List.length_cons, pcmInt16s_length rest]
    omega

theorem pcmInt16s_dropLast : ∀ bs : List Nat, bs.length % 2 = 1 →
    pcmInt16s bs = pcmInt16s bs.dropLast
  | [], h => by simp at h
  | [_], _ => by simp [pcmInt16s]
  | [_, _], h => by simp at h
  | lo :: hi :: c :: t, h => by
    have h2 : (c :: t).length % 2 = 1 := by
      simp only [List.length_cons] at h ⊢
      omega
    have : (lo :: hi :: c :: t).dropLast = lo :: hi :: (c :: t).dropLast := by
      simp [List.dropLast]
    rw [this]
    simp only [pcmInt16s]
    rw [pcmInt16s_dropLast (c :: t) h2]

theorem b64Val_lt (c : Char) (v : Nat) (h : b64Val c = some v) : v < 64 := by
  unfold b64Val at h
  split at h
  · rename_i hc
    have h1 : c.toNat ≤ 90 := hc.2
    simp only [Option.some.injEq] at h
    omega
  · split at h
    · rename_i hc
      have h1 : c.toNat ≤ 122 := hc.2
      have h2 : 97 ≤ c.toNat := hc.1
      simp only [Option.some.injEq] at h
      omega
    · split at h
      · rename_i hc
        have h1 : c.toNat ≤ 57 := hc.2
        have h2 : 48 ≤ c.toNat := hc.1
        simp only [Option.some.injEq] at h
        omega
      · split at h
        · simp only [Option.some.injEq] at h
          omega
        · split at h
          · simp only [Option.some.injEq] at h
            omega
          · exact absurd h (by simp)

theorem mapM_b64Val_lt : ∀ (cs : List Char) (vs : List Nat),
    cs.mapM b64Val = some vs → ∀ v ∈ vs, v < 64 := by
  intro cs
  induction cs with
  | nil =>
    intro vs h v hv
    simp only [List.mapM_nil, pure, Option.some.injEq] at h
    subst h
    simp at hv
  | cons c t ih =>
    intro vs h v hv
    rw [List.mapM_cons] at h
    cases hc : b64Val c with
    | none => rw [hc] at h; simp at h
    | some w =>
      rw [hc] at h
      cases ht : t.mapM b64Val with
      | none => rw [ht] at h; simp at h
      | some ws =>
        rw [ht] at h
        simp only [Option.bind_some, Option.map_some, Option.some.injEq, pure,
          Option.bind_eq_bind] at h
        have : vs = w :: ws := by
          simpa using h.symm
        subst this
        rcases List.mem_cons.mp hv with rfl | hv2
        · exact b64Val_lt c v hc
        · exact ih ws ht v hv2

theorem b64Groups_lt : ∀ vs : List Nat, (∀ v ∈ vs, v < 64) →
    ∀ b ∈ b64Groups vs, b < 256
  | [], _ => by simp [b64Groups]
  | [a], h => by simp [b64Groups]
  | [a, b], h => by
    have ha := h a (by simp)
    have hb := h b (by simp)
    simp only [b64Groups, List.mem_singleton]
    intro x hx
    subst hx
    omega
  | [a, b, c], h => by
    have ha := h a (by simp)
    have hb := h b (by simp)
    have hc := h c (by simp)
    simp only [b64Groups]
    intro x hx
    rcases List.mem_cons.mp hx with rfl | hx
    · omega
    · rcases List.mem_singleton.mp hx with rfl
      omega
  | a :: b :: c :: d :: e :: rest, h => by
    have ha := h a (by simp)
    have hb := h b (by simp)
    have hc := h c (by simp)
    have hd := h d (by simp)
    have htail : ∀ v ∈ e :: rest, v < 64 := fun v hv => h v (by simp [hv])
    intro x hx
    simp only [b64Groups] at hx
    rcases List.mem_cons.mp hx with rfl | hx
    · omega
    · rcases List.mem_cons.mp hx with rfl | hx
      · omega
      · rcases List.mem_cons.mp hx with rfl | hx
        · omega
        · exact b64Groups_lt (e :: rest) htail x hx
  | [a, b, c, d], h => by
    have ha := h a (by simp)
    have hb := h b (by simp)
    have hc := h c (by simp)
    have hd := h d (by simp)
    intro x hx
    simp only [b64Groups] at hx
    rcases List.mem_cons.mp hx with rfl | hx
    · omega
    · rcases List.mem_cons.mp hx with rfl | hx
      · omega
      · rcases List.mem_cons.mp hx with rfl | hx
        · omega
        · simp at hx

theorem atob_bytes_lt (s : String) (bytes : List Nat)
    (h : atob s = some bytes) : ∀ b ∈ bytes, b < 256 := by
  simp only [atob] at h
  split at h
  · simp at h
  · cases hm : (b64StripPadding
        (s.toList.filter (fun c => !b64AsciiWs c))).mapM b64Val with
    | none => rw [hm] at h; simp at h
    | some vs =>
      rw [hm] at h
      have hb : bytes = b64Groups vs := by simpa using h.symm
      subst hb
      exact b64Groups_lt vs (mapM_b64Val_lt _ vs hm)

theorem int16OfPair_bounds (lo hi : Nat) (hlo : lo < 256) (hhi : hi < 256) :
    -32768 ≤ int16OfPair lo hi ∧ int16OfPair lo hi ≤ 32767 := by
  simp only [int16OfPair]
  split <;> omega

theorem pcmInt16s_bounds : ∀ bs : List Nat, (∀ b ∈ bs, b < 256) →
    ∀ n ∈ pcmInt16s bs, -32768 ≤ n ∧ n ≤ 32767
  | [], _ => by simp [pcmInt16s]
  | [_], _ => by simp [pcmInt16s]
  | lo :: hi :: rest, h => by
    intro n hn
    rcases List.mem_cons.mp hn with rfl | hn2
    · exact int16OfPair_bounds lo hi (h lo (by simp)) (h hi (by simp))
    · exact pcmInt16s_bounds rest (fun b hb => h b (by simp [hb])) n hn2

theorem sample_bounds (n : ℤ) (h1 : -32768 ≤ n) (h2 : n ≤ 32767) :
    -1 ≤ (n : ℚ) / 32768 ∧ (n : ℚ) / 32768 ≤ 1 := by
  have h1q : (-32768 : ℚ) ≤ (n : ℚ) := by exact_mod_cast h1
  have h2q : (n : ℚ) ≤ 32767 := by exact_mod_cast h2
  constructor
  · rw [le_div_iff₀ (by norm_num : (0 : ℚ) < 32768)]
    linarith
  · rw [div_le_one (by norm_num : (0 : ℚ) < 32768)]
    linarith

/-- Claim C6: `decodePCM` base64-decodes, drops a trailing odd byte
(never failing on odd length), interprets bytes as signed 16-bit
little-endian samples, and yields a mono 24 kHz buffer whose i-th sample
is the i-th 16-bit integer divided by 32768 and lies in `[-1, 1]`; as a
function it is pure. -/
theorem decodePCM_spec (s : String) (bytes : List Nat)
    (h : atob s = some bytes) :
    decodePCM s = some { sampleRate := 24000, numChannels := 1,
                         samples := pcmSamples bytes } ∧
    pcmSamples bytes = (pcmInt16s bytes).map (fun n : ℤ => (n : ℚ) / 32768) ∧
    (pcmSamples bytes).length = bytes.length / 2 ∧
    (bytes.length % 2 = 1 → pcmSamples bytes = pcmSamples bytes.dropLast) ∧
    (∀ x ∈ pcmSamples bytes, -1 ≤ x ∧ x ≤ 1) ∧
    (∀ s2 : String, s2 = s → decodePCM s2 = decodePCM s) := by
  refine ⟨?_, rfl, ?_, ?_, ?_, ?_⟩
  · unfold decodePCM
    rw [h]
    rfl
  · unfold pcmSamples
    rw [List.length_map]
    exact pcmInt16s_length bytes
  · intro hodd
    unfold pcmSamples
    rw [pcmInt16s_dropLast bytes hodd]
  · intro x hx
    unfold pcmSamples at hx
    rcases List.mem_map.mp hx with ⟨n, hn, rfl⟩
    have hb := pcmInt16s_bounds bytes (atob_bytes_lt s bytes h) n hn
    exact sample_bounds n hb.1 hb.2
  · intro s2 h2
    rw [h2]

/-- Witness for C6 at the payload `"AAE="` (bytes `0x00 0x01`). -/
theorem decodePCM_spec_witness :
    atob "AAE=" = some [0, 1] ∧
    decodePCM "AAE=" = some { sampleRate := 24000, numChannels := 1,
                              samples := pcmSamples [0, 1] } := by
  exact ⟨by decide, (decodePCM_spec "AAE=" [0, 1] (by decide)).1⟩

theorem stripMd_length_le (l : List Char) : (stripMd l).length ≤ l.length := by
  have h : List.Sublist (stripMd l) l := by
    rw [stripMd]
    exact List.filter_sublist l
  exact h.length_le

/-- A 601-character summary with no markdown characters whose last
character is a period. -/
def ttsEdgeInput : List Char := List.replicate 600 'a' ++ ['.']

theorem ttsEdgeInput_length : ttsEdgeInput.length = 601 := by
  rw [ttsEdgeInput, List.length_append, List.length_replicate,
    List.length_singleton]

theorem stripMd_ttsEdgeInput : stripMd ttsEdgeInput = ttsEdgeInput := by
  rw [stripMd, List.filter_eq_self]
  intro c hc
  rw [ttsEdgeInput] at hc
  rcases List.mem_append.mp hc with h | h
  · rw [List.eq_of_mem_replicate h]
    decide
  · rcases List.mem_singleton.mp h with rfl
    decide

/-- Claim C10 counterexample: the claim says the narrated text equals the
displayed summary only when the summary is at most 600 characters long;
this 601-character summary (no markdown characters, ending in a period)
is narrated verbatim. -/
theorem tts_text_counterexample :
    safeTtsText ttsEdgeInput = ttsEdgeInput ∧
    ¬ (ttsEdgeInput.length ≤ 600) := by
  constructor
  · rw [safeTtsText, stripMd_ttsEdgeInput]
    rw [if_pos (by rw [ttsEdgeInput_length]; norm_num)]
    have htake : ttsEdgeInput.take 600 = List.replicate 600 'a' := by
      rw [ttsEdgeInput, List.take_left']
      rw [List.length_replicate]
    rw [htake, ttsEdgeInput]
  · rw [ttsEdgeInput_length]
    norm_num

/-- Claim C10 (amended): `generateAudioSummary` strips `*`, `#`, `_` and,
when the stripped text exceeds 600 characters, sends its first 600
characters followed by a period; hence the narrated text equals the
displayed summary iff the summary contains none of those characters and
is either at most 600 characters long or exactly 601 characters long
with a final period. -/
theorem tts_text_equality_iff (l : List Char) :
    (600 < (stripMd l).length →
       safeTtsText l = (stripMd l).take 600 ++ ['.']) ∧
    ((stripMd l).length ≤ 600 → safeTtsText l = stripMd l) ∧
    (safeTtsText l = l ↔
       stripMd l = l ∧ (l.length ≤ 600 ∨ l.drop 600 = ['.'])) := by
  refine ⟨?_, ?_, ?_, ?_⟩
  · intro hgt
    rw [safeTtsText, if_pos hgt]
  · intro hle
    rw [safeTtsText, if_neg (by omega)]
  -- forward direction of the iff
  · intro heq
    by_cases hgt : 600 < (stripMd l).length
    · rw [safeTtsText, if_pos hgt] at heq
      have hslen : (stripMd l).length ≤ l.length := stripMd_length_le l
      have hlen : l.length = 601 := by
        have h1 : ((stripMd l).take 600 ++ ['.']).length = 601 := by
          rw [List.length_append, List.length_take, List.length_singleton]
          omega
        rw [heq] at h1
        exact h1
      have hslen601 : (stripMd l).length = 601 := by omega
      have hsub : List.Sublist (stripMd l) l := by
        rw [stripMd]
        exact List.filter_sublist l
      have hstrip : stripMd l = l :=
        hsub.eq_of_length (by rw [hslen601, hlen])
      refine ⟨hstrip, Or.inr ?_⟩
      have htake : ((stripMd l).take 600).length = 600 := by
        rw [List.length_take]
        omega
      calc l.drop 600 = ((stripMd l).take 600 ++ ['.']).drop 600 := by
              rw [heq]
        _ = ['.'] := List.drop_left' htake
    · rw [safeTtsText, if_neg hgt] at heq
      refine ⟨heq, Or.inl ?_⟩
      have h600 : (stripMd l).length ≤ 600 := by omega
      rw [heq] at h600
      exact h600
  -- backward direction of the iff
  · rintro ⟨hstrip, hle | hdrop⟩
    · rw [safeTtsText, if_neg (by rw [hstrip]; omega)]
      exact hstrip
    · have hlen : l.length = 601 := by
        have h1 : (l.drop 600).length = l.length - 600 := List.length_drop _ _
        rw [hdrop, List.length_singleton] at h1
        have h2 : 600 < l.length := by
          by_contra hc
          push_neg at hc
          have hnil : l.drop 600 = [] := List.drop_eq_nil_of_le hc
          rw [hdrop] at hnil
          exact absurd hnil (by simp)
        omega
      rw [safeTtsText, hstrip, if_pos (by omega)]
      conv_rhs => rw [← List.take_append_drop 600 l]
      rw [hdrop]

/-- Witness for the amended C10 theorem at a short concrete summary. -/
theorem tts_text_equality_iff_witness :
    safeTtsText ['o', 'k'] = ['o', 'k'] :=
  ((tts_text_equality_iff ['o', 'k']).2.2).mpr
    (by refine ⟨by decide, Or.inl (by decide)⟩)

/-- The parse stage of `generateHealthReport` (geminiService.ts lines
111-120): clean the response text, `JSON.parse` it, and on failure throw
the dedicated `Error("Failed to parse AI response")` instead of
propagating the raw exception. -/
def reportParseStage (text : List Char) : Except JsError Json :=
  match parseJson (cleanJsonString text) with
  | some v => .ok v
  | none => .error ⟨"Failed to parse AI response"⟩

/-- The spec's test response: fenced JSON with a trailing comma before a
closing bracket. -/
def exFencedResponse : List Char :=
  "```json\n".toList ++ ['{'] ++ " \"data\": [1, 2,] ".toList ++ ['}'] ++
    "\n```".toList

/-- What `cleanJsonString` produces for `exFencedResponse`. -/
def exCleanedResponse : List Char :=
  ['{'] ++ " \"data\": [1, 2] ".toList ++ ['}']

/-- Claim C5: cleaning strips fences, extracts the first-`\x7b`-to-last-
`\x7d` substring and removes trailing commas, making the fenced
trailing-comma response parseable; and a string whose cleaned form still
fails to parse makes the report call fail with the distinct
parse-failure error (classified as the malformed-response message), not
crash. -/
theorem clean_json_pipeline :
    (cleanJsonString exFencedResponse = exCleanedResponse ∧
     (parseJson exCleanedResponse).isSome = true ∧
     reportParseStage exFencedResponse =
       .ok (Json.obj [("data".toList, Json.arr [Json.num ['1'], Json.num ['2']])])) ∧
    (∀ t : List Char, parseJson (cleanJsonString t) = none →
       reportParseStage t = .error ⟨"Failed to parse AI response"⟩) ∧
    (∀ (t : List Char) (v : Json), parseJson (cleanJsonString t) = some v →
       reportParseStage t = .ok v) ∧
    refineErrorMessage "Failed to parse AI response" =
      "A malformed response was received from the AI. Please try again." := by
  refine ⟨⟨by decide, by decide, by rfl⟩, ?_, ?_, by decide⟩
  · intro t h
    rw [reportParseStage, h]
  · intro t v h
    rw [reportParseStage, h]

/-- Witness for C5: the general parse-failure clause applied to the
response `"not json"`. -/
theorem clean_json_pipeline_witness :
    reportParseStage "not json".toList =
      .error ⟨"Failed to parse AI response"⟩ :=
  clean_json_pipeline.2.1 "not json".toList (by rfl)

theorem refineErrorMessage_classified (m : String) :
    refineErrorMessage m =
      "The AI servers are currently experiencing high traffic. Please try again in a moment." ∨
    refineErrorMessage m =
      "The AI service is currently unavailable (Model Not Found). Please contact support." ∨
    refineErrorMessage m =
      "Service configuration error: Invalid or missing API Key." ∨
    refineErrorMessage m =
      "The profile data triggered safety filters. Please review your entries and try again." ∨
    refineErrorMessage m =
      "A malformed response was received from the AI. Please try again." ∨
    refineErrorMessage m =
      "An issue occurred while analyzing your profile. Please check your connection and try again." ∨
    refineErrorMessage m = "Analysis failed: " ++ m := by
  rw [refineErrorMessage]
  split_ifs
  · exact Or.inr (Or.inr (Or.inr (Or.inr (Or.inr (Or.inl rfl)))))
  · exact Or.inl rfl
  · exact Or.inr (Or.inl rfl)
  · exact Or.inr (Or.inr (Or.inl rfl))
  · exact Or.inr (Or.inr (Or.inr (Or.inl rfl)))
  · exact Or.inr (Or.inr (Or.inr (Or.inr (Or.inl rfl))))
  · exact Or.inr (Or.inr (Or.inr (Or.inr (Or.inr (Or.inr rfl)))))


theorem handleFormSubmit_ok_shape (env : GenEnv) (s0 : AppModel)
    (rep : HealthReport) (h : env.fullReport = .ok rep) :
    (handleFormSubmit env s0).launched =
      [.visual, .fastSummary, .fullReport, .narration] ∧
    (handleFormSubmit env s0).joinTime = max env.tSummary env.tReport ∧
    (handleFormSubmit env s0).final.appState = .report ∧
    (handleFormSubmit env s0).final.error = none ∧
    ((handleFormSubmit env s0).final.report =
       some { rep with summary := generateFastSummary env } ∨
     ∃ img, generateReportVisual env = some img ∧ img ≠ "" ∧
       (handleFormSubmit env s0).final.report =
         some (attachVisual img { rep with summary := generateFastSummary env })) ∧
    (generateReportVisual env = none →
       (handleFormSubmit env s0).final.report =
         some { rep with summary := generateFastSummary env }) ∧
    (∀ e, generateAudioSummary env (generateFastSummary env) = .error e →
       (handleFormSubmit env s0).final.reportAudio = none) := by
  unfold handleFormSubmit
  simp only [summaryPromise, reportPromise, visualPromise, audioPromise,
    promAll2, h]
  cases hv : generateReportVisual env with
  | none =>
    cases ha : generateAudioSummary env (generateFastSummary env) with
    | ok a =>
      by_cases hae : a = "" <;> simp [hae]
    | error e => simp
  | some img =>
    by_cases hie : img = ""
    · cases ha : generateAudioSummary env (generateFastSummary env) with
      | ok a =>
        by_cases hae : a = "" <;> simp [hie, hae]
      | error e => simp [hie]
    · cases ha : generateAudioSummary env (generateFastSummary env) with
      | ok a =>
        by_cases hae : a = "" <;> simp [hie, hae]
      | error e => simp [hie]

/-- Claim C1: on submission, the orchestrator launches the fast-summary,
full-report, image and narration calls; its result is produced only once
both the fast summary and the full report have resolved (at
`max tSummary tReport`), and the displayed report is the full report
with its own summary field overwritten by the fast summary's text. -/
theorem orchestrator_and_join (env : GenEnv) (s0 : AppModel)
    (rep : HealthReport) (h : env.fullReport = .ok rep) :
    (handleFormSubmit env s0).launched =
      [.visual, .fastSummary, .fullReport, .narration] ∧
    (handleFormSubmit env s0).joinTime = max env.tSummary env.tReport ∧
    env.tSummary ≤ (handleFormSubmit env s0).joinTime ∧
    env.tReport ≤ (handleFormSubmit env s0).joinTime ∧
    ∃ r, (handleFormSubmit env s0).final.report = some r ∧
      r.summary = generateFastSummary env ∧
      r.bmi = rep.bmi ∧
      r.bmiCategory = rep.bmiCategory ∧
      r.overallHealthScore = rep.overallHealthScore ∧
      r.potentialRisks = rep.potentialRisks ∧
      r.keyStrengths = rep.keyStrengths ∧
      r.dailyRoutine = rep.dailyRoutine ∧
      r.nutritionalAdvice = rep.nutritionalAdvice ∧
      r.sources = rep.sources := by
  obtain ⟨hl, hj, _, _, hrep, _, _⟩ := handleFormSubmit_ok_shape env s0 rep h
  refine ⟨hl, hj, by rw [hj]; exact le_max_left _ _,
    by rw [hj]; exact le_max_right _ _, ?_⟩
  rcases hrep with hr | ⟨img, _, _, hr⟩
  · exact ⟨_, hr, rfl, rfl, rfl, rfl, rfl, rfl, rfl, rfl, rfl⟩
  · exact ⟨_, hr, rfl, rfl, rfl, rfl, rfl, rfl, rfl, rfl, rfl⟩

/-- The concrete full report used by the orchestrator witnesses. -/
def exReport : HealthReport :=
  { bmi := 24, bmiCategory := "Normal", overallHealthScore := 80,
    summary := "full-report own summary", potentialRisks := ["risk"],
    keyStrengths := ["strength"], dailyRoutine := [],
    nutritionalAdvice := ["tip"] }

/-- The app state a submission starts from in the witnesses. -/
def exApp : AppModel :=
  { appState := .form, report := none, reportAudio := none, error := none }

/-- A fully successful environment. -/
def exEnvOk : GenEnv :=
  { tVisual := 3, tSummary := 1, tReport := 2, tAudioDelta := 1,
    fastSummaryRaw := .ok "fast summary", fullReport := .ok exReport,
    visualParts := .ok [some "img"],
    audioData := fun _ => .ok (some "audio") }

/-- Witness for C1 at `exEnvOk`. -/
theorem orchestrator_and_join_witness :
    (handleFormSubmit exEnvOk exApp).joinTime = max (1 : ℚ) 2 ∧
    ∃ r, (handleFormSubmit exEnvOk exApp).final.report = some r ∧
      r.summary = generateFastSummary exEnvOk := by
  obtain ⟨_, hj, _, _, ⟨r, hr, hs, _⟩⟩ :=
    orchestrator_and_join exEnvOk exApp exReport rfl
  exact ⟨hj, r, hr, hs⟩

/-- Claim C2: when the full-report call rejects, the submission as a
whole fails: the state moves to the error screen carrying the classified
message for the rejection (one of the six user-facing classes), the
audio slot is cleared, and the displayed report is exactly what it was
before the submission — no partial draft. -/
theorem orchestrator_required_path_failure (env : GenEnv) (s0 : AppModel)
    (e : JsError) (h : env.fullReport = .error e) :
    (handleFormSubmit env s0).final.appState = .error ∧
    (handleFormSubmit env s0).final.report = s0.report ∧
    (handleFormSubmit env s0).final.reportAudio = none ∧
    (handleFormSubmit env s0).final.error =
      some (refineErrorMessage e.message) ∧
    (refineErrorMessage e.message =
       "The AI servers are currently experiencing high traffic. Please try again in a moment." ∨
     refineErrorMessage e.message =
       "The AI service is currently unavailable (Model Not Found). Please contact support." ∨
     refineErrorMessage e.message =
       "Service configuration error: Invalid or missing API Key." ∨
     refineErrorMessage e.message =
       "The profile data triggered safety filters. Please review your entries and try again." ∨
     refineErrorMessage e.message =
       "A malformed response was received from the AI. Please try again." ∨
     refineErrorMessage e.message =
       "An issue occurred while analyzing your profile. Please check your connection and try again." ∨
     refineErrorMessage e.message = "Analysis failed: " ++ e.message) := by
  refine ⟨?_, ?_, ?_, ?_, refineErrorMessage_classified e.message⟩ <;>
    simp [handleFormSubmit, summaryPromise, reportPromise, promAll2, h]

/-- An environment whose full-report call rejects with a quota error. -/
def exEnvErr : GenEnv :=
  { exEnvOk with
      fullReport := .error ⟨"429 Resource has been exhausted"⟩ }

/-- Witness for C2 at `exEnvErr`: the previous report survives untouched
and the rate-limit message is shown. -/
theorem orchestrator_required_path_failure_witness :
    (handleFormSubmit exEnvErr exApp).final.appState = .error ∧
    (handleFormSubmit exEnvErr exApp).final.report = none ∧
    (handleFormSubmit exEnvErr exApp).final.error =
      some "The AI servers are currently experiencing high traffic. Please try again in a moment." := by
  obtain ⟨hs, hr, _, he, _⟩ := orchestrator_required_path_failure exEnvErr
    exApp ⟨"429 Resource has been exhausted"⟩ rfl
  refine ⟨hs, hr, ?_⟩
  rw [he]
  decide

/-- Claim C3: when the image or the narration call fails while the fast
summary and the full report succeed, the submission still lands on the
report screen with no user-visible error and every report field
populated; the failed call's field is simply left absent. -/
theorem orchestrator_optional_path_tolerance (env : GenEnv) (s0 : AppModel)
    (rep : HealthReport) (h : env.fullReport = .ok rep)
    (hvb : rep.visualBase64 = none) :
    (handleFormSubmit env s0).final.appState = .report ∧
    (handleFormSubmit env s0).final.error = none ∧
    (generateReportVisual env = none →
       ∃ r, (handleFormSubmit env s0).final.report = some r ∧
         r.visualBase64 = none ∧
         r.summary = generateFastSummary env ∧
         r.bmi = rep.bmi ∧
         r.potentialRisks = rep.potentialRisks ∧
         r.keyStrengths = rep.keyStrengths ∧
         r.dailyRoutine = rep.dailyRoutine ∧
         r.nutritionalAdvice = rep.nutritionalAdvice) ∧
    (∀ e, generateAudioSummary env (generateFastSummary env) = .error e →
       (handleFormSubmit env s0).final.reportAudio = none) := by
  obtain ⟨_, _, hst, herr, _, hvis, haud⟩ :=
    handleFormSubmit_ok_shape env s0 rep h
  refine ⟨hst, herr, ?_, haud⟩
  intro hv
  refine ⟨_, hvis hv, ?_, rfl, rfl, rfl, rfl, rfl, rfl⟩
  exact hvb

/-- An environment whose image and narration calls both fail while the
critical calls succeed. -/
def exEnvOpt : GenEnv :=
  { exEnvOk with
      visualParts := .error ⟨"image backend down"⟩,
      audioData := fun _ => .error ⟨"tts backend down"⟩ }

/-- Witness for C3 at `exEnvOpt`. -/
theorem orchestrator_optional_path_tolerance_witness :
    (handleFormSubmit exEnvOpt exApp).final.appState = .report ∧
    (handleFormSubmit exEnvOpt exApp).final.error = none ∧
    (∃ r, (handleFormSubmit exEnvOpt exApp).final.report = some r ∧
       r.visualBase64 = none) ∧
    (handleFormSubmit exEnvOpt exApp).final.reportAudio = none := by
  obtain ⟨hst, herr, hvis, haud⟩ := orchestrator_optional_path_tolerance
    exEnvOpt exApp exReport rfl rfl
  obtain ⟨r, hr, hrv, _⟩ := hvis rfl
  exact ⟨hst, herr, ⟨r, hr, hrv⟩, haud ⟨"tts backend down"⟩ rfl⟩

theorem find_key_map_replace (m : List (String × Source)) (k : String)
    (v : Source) (u : String) :
    (m.map (fun p => if p.1 = k then (p.1, v) else p)).find?
        (fun p => p.1 = u)
      = (m.find? (fun p => p.1 = u)).map
          (fun p => if p.1 = k then (p.1, v) else p) := by
  induction m with
  | nil => rfl
  | cons a t ih =>
    have hb1 : (if a.1 = k then (a.1, v) else a).1 = a.1 := by
      by_cases hak : a.1 = k <;> simp [hak]
    by_cases hau : a.1 = u
    · rw [List.map_cons,
        List.find?_cons_of_pos _ (by rw [hb1]; simp [hau]),
        List.find?_cons_of_pos _ (by simp [hau])]
      rfl
    · rw [List.map_cons,
        List.find?_cons_of_neg _ (by rw [hb1]; simp [hau]),
        List.find?_cons_of_neg _ (by simp [hau]), ih]

theorem find_values_by_uri (m : List (String × Source))
    (hinv : ∀ p ∈ m, p.2.uri = p.1) (u : String) :
    (m.map Prod.snd).find? (fun s => s.uri = u)
      = (m.find? (fun p => p.1 = u)).map Prod.snd := by
  induction m with
  | nil => rfl
  | cons a t ih =>
    have ha : a.2.uri = a.1 := hinv a (by simp)
    have ht : ∀ p ∈ t, p.2.uri = p.1 := fun p hp => hinv p (by simp [hp])
    by_cases hau : a.1 = u
    · rw [List.map_cons,
        List.find?_cons_of_pos _ (by simp [ha, hau]),
        List.find?_cons_of_pos _ (by simp [hau])]
      rfl
    · rw [List.map_cons,
        List.find?_cons_of_neg _ (by simp [ha, hau]),
        List.find?_cons_of_neg _ (by simp [hau]), ih ht]

theorem map_replace_fst (m : List (String × Source)) (k : String)
    (v : Source) :
    (m.map (fun p => if p.1 = k then (p.1, v) else p)).map Prod.fst
      = m.map Prod.fst := by
  rw [List.map_map]
  apply List.map_congr_left
  intro p _
  by_cases hp : p.1 = k <;> simp [hp]

theorem foldl_dedupe (sources : List Source) :
    ∀ (m : List (String × Source)) (done : List Source),
    (∀ p ∈ m, p.2.uri = p.1) →
    (m.map Prod.fst).Nodup →
    (∀ u, (m.find? (fun p => p.1 = u)).map Prod.snd
        = done.reverse.find? (fun s => s.uri = u)) →
    (∀ p ∈ m, ∃ s ∈ done, s.uri = p.1) →
    ((∀ p ∈ sources.foldl (fun acc s => jsMapSet acc s.uri s) m,
        p.2.uri = p.1) ∧
     (((sources.foldl (fun acc s => jsMapSet acc s.uri s) m).map
         Prod.fst).Nodup) ∧
     (∀ u, ((sources.foldl (fun acc s => jsMapSet acc s.uri s) m).find?
              (fun p => p.1 = u)).map Prod.snd
        = (done ++ sources).reverse.find? (fun s => s.uri = u)) ∧
     (∀ p ∈ sources.foldl (fun acc s => jsMapSet acc s.uri s) m,
        ∃ s ∈ done ++ sources, s.uri = p.1)) := by
  induction sources with
  | nil =>
    intro m done h1 h2 h3 h4
    refine ⟨h1, h2, ?_, ?_⟩
    · intro u
      rw [List.foldl_nil, h3 u, List.append_nil]
    · intro p hp
      rw [List.foldl_nil] at hp
      rcases h4 p hp with ⟨t, ht, htu⟩
      exact ⟨t, by rw [List.append_nil]; exact ht, htu⟩
  | cons s rest ih =>
    intro m done h1 h2 h3 h4
    rw [List.foldl_cons]
    have key : ∀ x, (s :: x, done ++ s :: rest) = (s :: x, (done ++ [s]) ++ rest) := by
      simp
    -- invariants for the accumulator after inserting s
    have h1' : ∀ p ∈ jsMapSet m s.uri s, p.2.uri = p.1 := by
      intro p hp
      rw [jsMapSet] at hp
      split at hp
      · rcases List.mem_map.mp hp with ⟨q, hq, rfl⟩
        by_cases hqk : q.1 = s.uri <;> simp [hqk, h1 q hq]
      · rcases List.mem_append.mp hp with hq | hq
        · exact h1 p hq
        · rcases List.mem_singleton.mp hq with rfl
          rfl
    have h2' : ((jsMapSet m s.uri s).map Prod.fst).Nodup := by
      rw [jsMapSet]
      split
      · rw [map_replace_fst]
        exact h2
      · rename_i hnone
        rw [List.map_append]
        simp only [List.map_cons, List.map_nil]
        rw [List.nodup_append]
        refine ⟨h2, List.nodup_singleton _, ?_⟩
        intro x hx hx2
        rcases List.mem_singleton.mp hx2 with rfl
        rcases List.mem_map.mp hx with ⟨q, hq, hqf⟩
        exact absurd (List.any_eq_true.mpr ⟨q, hq, by simp [hqf]⟩) hnone
    have h3' : ∀ u, ((jsMapSet m s.uri s).find? (fun p => p.1 = u)).map
          Prod.snd = (done ++ [s]).reverse.find? (fun t => t.uri = u) := by
      intro u
      rw [List.reverse_append, List.reverse_singleton, List.singleton_append]
      rw [jsMapSet]
      by_cases hu : s.uri = u
      · subst hu
        rw [List.find?_cons_of_pos _ (by simp)]
        split
        · rename_i hsome
          rcases List.any_eq_true.mp hsome with ⟨q, hq, hqk⟩
          simp only [decide_eq_true_eq] at hqk
          -- the original map has an entry with key s.uri, so find? finds one
          rw [find_key_map_replace]
          cases hf : m.find? (fun p => p.1 = s.uri) with
          | none =>
            rw [List.find?_eq_none] at hf
            exact absurd hqk (by simpa using hf q hq)
          | some q0 =>
            have hq0 : q0.1 = s.uri := by
              have := List.find?_some hf
              simpa using this
            simp [hq0]
        · rw [List.find?_append]
          have hf : m.find? (fun p => p.1 = s.uri) = none := by
            rename_i hnone
            rw [List.find?_eq_none]
            intro q hq
            simp only [decide_eq_true_eq]
            intro hqk
            exact absurd (List.any_eq_true.mpr ⟨q, hq, by simp [hqk]⟩) hnone
          rw [hf]
          simp
      · rw [List.find?_cons_of_neg _ (by simp [hu])]
        split
        · rw [find_key_map_replace]
          cases hf : m.find? (fun p => p.1 = u) with
          | none => simp [← h3 u, hf]
          | some q0 =>
            have hq0 : q0.1 = u := by
              have := List.find?_some hf
              simpa using this
            have hq0k : ¬ q0.1 = s.uri := by
              rw [hq0]
              intro hc
              exact hu hc.symm
            rw [← h3 u, hf]
            simp [hq0k]
        · rw [List.find?_append]
          have hsing : List.find? (fun p => p.1 = u) [(s.uri, s)] = none := by
            simp [List.find?, hu]
          rw [hsing, ← h3 u]
          cases hf : m.find? (fun p => p.1 = u) <;> simp [hf]
    have h4' : ∀ p ∈ jsMapSet m s.uri s, ∃ t ∈ done ++ [s], t.uri = p.1 := by
      intro p hp
      rw [jsMapSet] at hp
      split at hp
      · rcases List.mem_map.mp hp with ⟨q, hq, rfl⟩
        by_cases hqk : q.1 = s.uri
        · exact ⟨s, by simp, by simp [hqk]⟩
        · rcases h4 q hq with ⟨t, ht, htu⟩
          exact ⟨t, by simp [ht], by simpa [hqk] using htu⟩
      · rcases List.mem_append.mp hp with hq | hq
        · rcases h4 p hq with ⟨t, ht, htu⟩
          exact ⟨t, by simp [ht], htu⟩
        · rcases List.mem_singleton.mp hq with rfl
          exact ⟨s, by simp, rfl⟩
    have := ih (jsMapSet m s.uri s) (done ++ [s]) h1' h2' h3' h4'
    refine ⟨this.1, this.2.1, ?_, ?_⟩
    · intro u
      rw [this.2.2.1 u]
      simp
    · intro p hp
      rcases this.2.2.2 p hp with ⟨t, ht, htu⟩
      refine ⟨t, ?_, htu⟩
      simpa using ht

theorem mappedSources_uri_ne (chunks : List GroundingChunk) :
    ∀ s ∈ mappedSources chunks, s.uri ≠ "" := by
  intro s hs
  rw [mappedSources] at hs
  have := List.of_mem_filter hs
  simpa using this

/-- Claim C4 counterexample: two citations share the URI `"u"` with
titles `"A"` then `"B"`; the deduplicated list keeps the *last-seen*
title `"B"`, not the first-seen title `"A"` the claim requires. -/
theorem dedupe_first_seen_counterexample :
    extractSources [⟨some "A", some "u"⟩, ⟨some "B", some "u"⟩] =
      [⟨"B", "u"⟩] ∧
    extractSources [⟨some "A", some "u"⟩, ⟨some "B", some "u"⟩] ≠
      [⟨"A", "u"⟩] := by
  constructor
  · decide
  · decide

/-- Claim C4 (amended): deduplication drops citations with empty URIs and
keeps exactly one entry per distinct URI (in order of first occurrence),
and the retained entry for each URI is the *last-seen* citation with
that URI — last-seen title wins, not first-seen. -/
theorem dedupe_by_uri_last_seen (chunks : List GroundingChunk) :
    (∀ s ∈ extractSources chunks, s.uri ≠ "") ∧
    ((extractSources chunks).map Source.uri).Nodup ∧
    (∀ u, (extractSources chunks).find? (fun s => s.uri = u)
        = (mappedSources chunks).reverse.find? (fun s => s.uri = u)) ∧
    (∀ s ∈ mappedSources chunks, ∃ t ∈ extractSources chunks,
       t.uri = s.uri) := by
  obtain ⟨h1, h2, h3, h4⟩ := foldl_dedupe (mappedSources chunks) [] []
    (by simp) (by simp) (fun u => rfl) (by simp)
  have hM : extractSources chunks =
      ((mappedSources chunks).foldl
        (fun acc s => jsMapSet acc s.uri s) []).map Prod.snd := rfl
  refine ⟨?_, ?_, ?_, ?_⟩
  · intro s hs
    rw [hM] at hs
    rcases List.mem_map.mp hs with ⟨p, hp, rfl⟩
    rcases h4 p hp with ⟨t, ht, htu⟩
    rw [List.nil_append] at ht
    rw [h1 p hp, ← htu]
    exact mappedSources_uri_ne chunks t ht
  · rw [hM, List.map_map]
    have : ((mappedSources chunks).foldl
        (fun acc s => jsMapSet acc s.uri s) []).map (Source.uri ∘ Prod.snd)
        = ((mappedSources chunks).foldl
            (fun acc s => jsMapSet acc s.uri s) []).map Prod.fst := by
      apply List.map_congr_left
      intro p hp
      exact h1 p hp
    rw [this]
    exact h2
  · intro u
    rw [hM, find_values_by_uri _ h1 u, h3 u, List.nil_append]
  · intro s hs
    have hsome : (((mappedSources chunks).foldl
        (fun acc s => jsMapSet acc s.uri s) []).find?
          (fun p => p.1 = s.uri)).isSome = true := by
      by_contra hc
      rw [Option.not_isSome_iff_eq_none] at hc
      have := h3 s.uri
      rw [hc, List.nil_append] at this
      have hnone : (mappedSources chunks).reverse.find?
          (fun t => t.uri = s.uri) = none := by
        cases hf : (mappedSources chunks).reverse.find?
            (fun t => t.uri = s.uri) with
        | none => rfl
        | some t => rw [hf] at this; simp at this
      rw [List.find?_eq_none] at hnone
      exact absurd (by simp : decide (s.uri = s.uri) = true)
        (by simpa using hnone s (by simpa using hs))
    rcases Option.isSome_iff_exists.mp hsome with ⟨p, hp⟩
    have hpm := List.mem_of_find?_eq_some hp
    have hpk : p.1 = s.uri := by
      have := List.find?_some hp
      simpa using this
    refine ⟨p.2, ?_, by rw [h1 p hpm, hpk]⟩
    rw [hM]
    exact List.mem_map.mpr ⟨p, hpm, rfl⟩

/-- Witness for the amended C4 theorem at the two-citation input. -/
theorem dedupe_by_uri_last_seen_witness :
    (extractSources [⟨some "A", some "u"⟩, ⟨some "B", some "u"⟩]).find?
        (fun s => s.uri = "u") = some ⟨"B", "u"⟩ := by
  rw [(dedupe_by_uri_last_seen
    [⟨some "A", some "u"⟩, ⟨some "B", some "u"⟩]).2.2.1 "u"]
  decide

/-- The structural invariant of a playback session: the started-and-not-
stopped nodes are at most the one held by `sourceNodeRef`, and a playing
session always holds a node. -/
def PBInv (s : PBState) : Prop :=
  (s.active = [] ∨ ∃ id, s.active = [id] ∧ s.sourceNode = some id) ∧
  (s.isPlaying = true → s.sourceNode.isSome)

theorem stopCurrent_active (s : PBState) (h : PBInv s) :
    (stopCurrent s).active = [] := by
  rcases h.1 with ha | ⟨id, ha, hsn⟩
  · rw [stopCurrent]
    cases hs : s.sourceNode <;> simp [ha]
  · rw [stopCurrent, hsn, ha]
    simp [List.erase_cons_head]

theorem playBuffer_active (s : PBState) (h : PBInv s) (o : ℚ) :
    (playBuffer s o).active = [s.nextId] ∧
    (playBuffer s o).sourceNode = some s.nextId ∧
    (playBuffer s o).nextId = s.nextId + 1 ∧
    (playBuffer s o).isPlaying = true ∧
    (playBuffer s o).lastStartOffset = some o := by
  have hstop := stopCurrent_active s h
  have hid : (stopCurrent s).nextId = s.nextId := by
    rw [stopCurrent]
    cases s.sourceNode <;> rfl
  rw [playBuffer]
  refine ⟨?_, ?_, ?_, rfl, rfl⟩
  · rw [hstop, hid]
  · rw [hid]
  · rw [hid]

theorem PBInv_step (s s2 : PBState) (h : PBInv s) (hs : PBStep s s2) :
    PBInv s2 := by
  cases hs with
  | play =>
    rw [handlePlayAudio]
    by_cases hp : s.isPlaying
    · rw [if_pos hp]
      cases hsn : s.sourceNode with
      | none => exact h
      | some id =>
        refine ⟨?_, by simp⟩
        rcases h.1 with ha | ⟨id2, ha, hsn2⟩
        · left
          simp [ha]
        · left
          rw [hsn] at hsn2
          rcases Option.some.injEq .. ▸ hsn2 with rfl
          simp [ha, List.erase_cons_head]
    · rw [if_neg hp]
      obtain ⟨ha, hsn, _, _, _⟩ :=
        playBuffer_active s h (if s.duration ≤ s.currentTime then 0
          else s.pausedTime)
      exact ⟨Or.inr ⟨s.nextId, ha, hsn⟩, fun _ => by rw [hsn]; rfl⟩
  | advance δ hδ => exact h
  | tick =>
    rw [rafTick]
    by_cases hp : s.isPlaying
    · rw [if_pos hp]
      exact ⟨h.1, fun _ => h.2 hp⟩
    · rw [if_neg hp]
      exact h
  | fire t hmem hdue =>
    rw [fireTimer]
    by_cases hsn : s.sourceNode = some t.2
    · rw [if_pos hsn]
      exact ⟨h.1, by simp⟩
    · rw [if_neg hsn]
      exact ⟨h.1, h.2⟩

theorem PBInv_reachable (d t0 : ℚ) (s : PBState)
    (h : PBReachable d t0 s) : PBInv s := by
  induction h with
  | refl => exact ⟨Or.inl rfl, by simp [initState]⟩
  | tail _ hstep ih => exact PBInv_step _ _ ih hstep

/-- Claim C8: in every reachable session state at most one playback
primitive is active; pressing play while already playing toggles to
pause (stopping the node, creating none); and two consecutive starts of
the playback primitive (`playBuffer` twice in a row, the only operation
that starts one) leave exactly one active, playing primitive — the
second start first stops and discards the first node. -/
theorem playback_single_primitive (d t0 : ℚ) (s : PBState)
    (h : PBReachable d t0 s) :
    s.active.length ≤ 1 ∧
    (s.isPlaying = true →
       (handlePlayAudio s).isPlaying = false ∧
       (handlePlayAudio s).nextId = s.nextId ∧
       (handlePlayAudio s).active = []) ∧
    (∀ o1 o2 : ℚ,
       (playBuffer (playBuffer s o1) o2).active.length = 1 ∧
       (playBuffer (playBuffer s o1) o2).isPlaying = true) := by
  have hinv := PBInv_reachable d t0 s h
  refine ⟨?_, ?_, ?_⟩
  · rcases hinv.1 with ha | ⟨id, ha, _⟩ <;> simp [ha]
  · intro hp
    rcases Option.isSome_iff_exists.mp (hinv.2 hp) with ⟨id, hsn⟩
    rw [handlePlayAudio, if_pos hp, hsn]
    refine ⟨rfl, rfl, ?_⟩
    rcases hinv.1 with ha | ⟨id2, ha, hsn2⟩
    · simp [ha]
    · rw [hsn] at hsn2
      rcases Option.some.injEq .. ▸ hsn2 with rfl
      simp [ha, List.erase_cons_head]
  · intro o1 o2
    obtain ⟨ha1, hsn1, hid1, hp1, _⟩ := playBuffer_active s hinv o1
    have hinv1 : PBInv (playBuffer s o1) :=
      ⟨Or.inr ⟨s.nextId, ha1, hsn1⟩, fun _ => by rw [hsn1]; rfl⟩
    obtain ⟨ha2, _, _, hp2, _⟩ := playBuffer_active (playBuffer s o1) hinv1 o2
    exact ⟨by rw [ha2]; rfl, hp2⟩

/-- Witness for C8 one step into a session: after the first play. -/
theorem playback_single_primitive_witness :
    (handlePlayAudio (initState 10 0)).active.length ≤ 1 :=
  (playback_single_primitive 10 0 (handlePlayAudio (initState 10 0))
    (Relation.ReflTransGen.single (PBStep.play (initState 10 0)))).1

/-- Claim C9 (amended): pausing while playing stores the elapsed time
(engine-clock-now minus start-reference) as the logical offset, and the
next play resumes at exactly that offset *provided the auto-stop timer
armed at the last start has not fired in between* — pausing does not
disarm that timer, and when it fires while the ref still holds its node
it resets the stored offset and head to 0; after a natural end (the
timer firing with no pause) the next play starts at offset 0. -/
theorem pause_resume_offset (s : PBState) (hp : s.isPlaying = true)
    (id : ℕ) (hsn : s.sourceNode = some id) (δ : ℚ)
    (hend : s.now - s.startTime < s.duration) :
    (handlePlayAudio s).pausedTime = s.now - s.startTime ∧
    (handlePlayAudio s).currentTime = s.now - s.startTime ∧
    (handlePlayAudio s).isPlaying = false ∧
    (handlePlayAudio { handlePlayAudio s with
        now := (handlePlayAudio s).now + δ }).lastStartOffset =
      some (s.now - s.startTime) ∧
    (∀ t : ℚ × ℕ, s.sourceNode = some t.2 →
       (fireTimer s t).pausedTime = 0 ∧
       (fireTimer s t).currentTime = 0 ∧
       (fireTimer s t).isPlaying = false ∧
       (handlePlayAudio { fireTimer s t with
           now := (fireTimer s t).now + δ }).lastStartOffset = some 0) := by
  have hpause : handlePlayAudio s =
      { s with active := s.active.erase id,
               pausedTime := s.now - s.startTime,
               currentTime := s.now - s.startTime,
               isPlaying := false } := by
    rw [handlePlayAudio, if_pos hp, hsn]
  refine ⟨by rw [hpause], by rw [hpause], by rw [hpause], ?_, ?_⟩
  · rw [hpause, handlePlayAudio]
    rw [if_neg (by simp)]
    rw [if_neg (by simpa using not_le.mpr hend)]
    rfl
  · intro t hsnt
    have hfire : fireTimer s t =
        { s with timers := s.timers.erase t, isPlaying := false,
                 pausedTime := 0, currentTime := 0 } := by
      rw [fireTimer, if_pos hsnt]
    refine ⟨by rw [hfire], by rw [hfire], by rw [hfire], ?_⟩
    rw [hfire, handlePlayAudio]
    rw [if_neg (by simp)]
    by_cases hd : s.duration ≤ 0
    · rw [if_pos (by simpa using hd)]
      rfl
    · rw [if_neg (by simpa using hd)]
      rfl

/-- The C9 counterexample trace: decode at t=0 (duration 10 s), play,
wait 1 s, pause (offset 1 stored), wait until the stale auto-stop timer
fires at t=10.2, wait some more, play again. -/
def cexS0 : PBState := initState 10 0

/-- play() at t = 0. -/
def cexS1 : PBState := handlePlayAudio cexS0

/-- 1 s passes. -/
def cexS2 : PBState := { cexS1 with now := cexS1.now + 1 }

/-- pause() at t = 1: stores offset 1. -/
def cexS3 : PBState := handlePlayAudio cexS2

/-- time passes until t = 10.2, when the stale timer is due. -/
def cexS4 : PBState := { cexS3 with now := cexS3.now + 46/5 }

/-- the auto-stop timeout armed by the play at t = 0 fires: the ref still
holds node 0, so the stored offset is clobbered to 0. -/
def cexS5 : PBState := fireTimer cexS4 (51/5, 0)

/-- more time passes. -/
def cexS6 : PBState := { cexS5 with now := cexS5.now + 4/5 }

/-- the next play(): it starts at offset 0, not at the stored offset 1. -/
def cexS7 : PBState := handlePlayAudio cexS6

/-- The state after the play at t = 0, in explicit form. -/
def cexS1Lit : PBState :=
  { now := 0, isPlaying := true, duration := 10, currentTime := 0,
    pausedTime := 0, startTime := 0, sourceNode := some 0, active := [0],
    nextId := 1, timers := [(51/5, 0)], lastStartOffset := some 0 }

/-- The state after the pause at t = 1, in explicit form: offset 1 is
stored, the timer armed at t = 0 is still pending, the ref still holds
node 0. -/
def cexS3Lit : PBState :=
  { now := 1, isPlaying := false, duration := 10, currentTime := 1,
    pausedTime := 1, startTime := 0, sourceNode := some 0, active := [],
    nextId := 1, timers := [(51/5, 0)], lastStartOffset := some 0 }

/-- The state after the stale timer fires at t = 10.2: the stored offset
has been clobbered to 0. -/
def cexS5Lit : PBState :=
  { now := 51/5, isPlaying := false, duration := 10, currentTime := 0,
    pausedTime := 0, startTime := 0, sourceNode := some 0, active := [],
    nextId := 1, timers := [], lastStartOffset := some 0 }

/-- The state after the play at t = 11: it started at offset 0. -/
def cexS7Lit : PBState :=
  { now := 11, isPlaying := true, duration := 10, currentTime := 0,
    pausedTime := 0, startTime := 11, sourceNode := some 1, active := [1],
    nextId := 2, timers := [(106/5, 1)], lastStartOffset := some 0 }

theorem cexS1_eq : cexS1 = cexS1Lit := by
  simp [cexS1, cexS0, cexS1Lit, initState, handlePlayAudio, playBuffer,
    stopCurrent, timerMargin]
  try norm_num

theorem cexS3_eq : cexS3 = cexS3Lit := by
  rw [cexS3, cexS2, cexS1_eq]
  simp [cexS1Lit, cexS3Lit, handlePlayAudio]
  try norm_num

theorem cexS5_eq : cexS5 = cexS5Lit := by
  rw [cexS5, cexS4, cexS3_eq]
  simp [cexS3Lit, cexS5Lit, fireTimer]
  try norm_num

theorem cexS7_eq : cexS7 = cexS7Lit := by
  rw [cexS7, cexS6, cexS5_eq]
  simp [cexS5Lit, cexS7Lit, handlePlayAudio, playBuffer, stopCurrent,
    timerMargin]
  try norm_num

/-- Claim C9 counterexample: in this legal trace the pause at t = 1
stores offset 1 and no play or pause intervenes afterwards, yet the next
play() starts the primitive at offset 0 — not at the stored offset —
because the auto-stop timer armed at t = 0 was not disarmed by the pause
and reset the offset at t = 10.2. -/
theorem pause_resume_counterexample :
    PBReachable 10 0 cexS7 ∧
    cexS3 = handlePlayAudio cexS2 ∧
    cexS3.pausedTime = 1 ∧
    cexS7 = handlePlayAudio cexS6 ∧
    cexS7.lastStartOffset = some 0 ∧
    some (0 : ℚ) ≠ some (1 : ℚ) := by
  refine ⟨?_, rfl, by rw [cexS3_eq]; rfl, rfl, by rw [cexS7_eq]; rfl, by norm_num⟩
  have h01 : PBStep cexS0 cexS1 := PBStep.play cexS0
  have h12 : PBStep cexS1 cexS2 := PBStep.advance cexS1 1 (by norm_num)
  have h23 : PBStep cexS2 cexS3 := PBStep.play cexS2
  have h34 : PBStep cexS3 cexS4 :=
    PBStep.advance cexS3 (46/5) (by norm_num)
  have hmem : ((51 : ℚ)/5, 0) ∈ cexS4.timers := by
    rw [cexS4, cexS3_eq]
    simp [cexS3Lit]
  have hdue : ((51 : ℚ)/5, (0 : ℕ)).1 ≤ cexS4.now := by
    rw [cexS4, cexS3_eq]
    simp [cexS3Lit]
    norm_num
  have h45 : PBStep cexS4 cexS5 := PBStep.fire cexS4 (51/5, 0) hmem hdue
  have h56 : PBStep cexS5 cexS6 :=
    PBStep.advance cexS5 (4/5) (by norm_num)
  have h67 : PBStep cexS6 cexS7 := PBStep.play cexS6
  exact Relation.ReflTransGen.tail
    (Relation.ReflTransGen.tail
      (Relation.ReflTransGen.tail
        (Relation.ReflTransGen.tail
          (Relation.ReflTransGen.tail
            (Relation.ReflTransGen.tail
              (Relation.ReflTransGen.single h01) h12) h23) h34) h45) h56) h67

/-- Witness for the amended C9 theorem at the playing state of the
counterexample trace: the pause at t = 1 stores offset 1 and a resume
(before the timer fires) restarts exactly there. -/
theorem pause_resume_offset_witness :
    (handlePlayAudio cexS2).pausedTime = 1 ∧
    (handlePlayAudio { handlePlayAudio cexS2 with
        now := (handlePlayAudio cexS2).now + 2 }).lastStartOffset =
      some 1 := by
  have hplay : cexS2.isPlaying = true := by
    rw [cexS2, cexS1_eq]
    rfl
  have hsn : cexS2.sourceNode = some 0 := by
    rw [cexS2, cexS1_eq]
    rfl
  have hend : cexS2.now - cexS2.startTime < cexS2.duration := by
    rw [cexS2, cexS1_eq]
    norm_num [cexS1Lit]
  obtain ⟨hA, _, _, hB, _⟩ := pause_resume_offset cexS2 hplay 0 hsn 2 hend
  have hone : cexS2.now - cexS2.startTime = 1 := by
    rw [cexS2, cexS1_eq]
    norm_num [cexS1Lit]
  rw [hone] at hA hB
  exact ⟨hA, hB⟩
